import Mathlib

/-!
Verification of the resource-caching and reply-deduplication core of the
GDG meetup bot (`src/gdgajubot/gdgajubot.py`), as a shallow embedding.

Conventions of the embedding:
* timestamps are `Int` seconds (the Python code uses `datetime` values and
  float seconds; all claims concern integral instants);
* the in-memory stores (the beaker `CacheManager` caches) are association
  lists, the most recent write first;
* fallible Python code (exceptions) is embedded as `Option`/`Except`;
* the chat transport (`telebot`) is a transcript of sent messages together
  with the next message id to hand out.
-/

set_option autoImplicit false

namespace GdgBot

/-! ## Book-offer countdown tiers (`GDGAjuBot.timeleft`, `_book_response`) -/

/-- The `timeleft` tier table of `GDGAjuBot`: ascending thresholds in
seconds paired with their Portuguese rendering. -/
def timeleft : List (Int × String) :=
  [(30, "30 segundos"), (60, "1 minuto"), (600, "10 minutos"),
   (1800, "meia hora"), (3600, "1 hora")]

/-- The fixed part of the `/book` reply built in `_book_response`. -/
def bookBase (book : String) : String :=
  "O livro de hoje é: [" ++ book ++ "](https://www.packtpub.com/packt/offers/free-learning)"

/-- The warning line appended for a tier rendering `w`. -/
def tierWarning (w : String) : String := "\n\nFaltam menos de " ++ w ++ "!"

/-- Embedding of `GDGAjuBot._book_response(book, expires, now)`: computes the remaining
seconds and appends the warning of the first tier whose threshold is at
least the remaining time (the `for num, in_words in self.timeleft` loop). -/
def book_response (book : String) (expires now : Int) : String :=
  let seconds := expires - now
  match timeleft.find? (fun p => decide (seconds ≤ p.1)) with
  | some p => bookBase book ++ tierWarning p.2
  | none => bookBase book

/-! ## Event formatting (`GDGAjuBot._format_events`) -/

/-- The `time` field of an event record: either the raw epoch-milliseconds
integer from the Meetup API, or the already-rendered display string it is
replaced with by `_format_events`. -/
inductive TimeField where
  | epoch (ms : Int)
  | rendered (s : String)
deriving DecidableEq

/-- One Meetup event as cached by `Resources.get_events` (`name`, `link`,
`time` fields requested from the API). -/
structure EventRec where
  name : String
  link : String
  time : TimeField
deriving DecidableEq

/-- Display text of a `time` field, as `"%(time)s" % event` renders it. -/
def timeText : TimeField → String
  | .epoch ms => toString ms
  | .rendered s => s

/-- The in-place rewrite `_format_events` performs on a single event: an
integer `time` is replaced by its rendered date-time string.  `render`
abstracts `datetime.fromtimestamp(ms / 1000, tz=util.AJU_TZ).strftime(...)`
(the time zone lives in `gdgajubot.util`, outside the embedded module). -/
def format_event (render : Int → String) (e : EventRec) : EventRec :=
  match e.time with
  | .epoch ms => { e with time := .rendered (render ms) }
  | .rendered _ => e

/-- One `"[%(name)s](%(link)s): %(time)s"` line of the reply. -/
def eventLine (e : EventRec) : String :=
  "[" ++ e.name ++ "](" ++ e.link ++ "): " ++ timeText e.time

/-- Embedding of `GDGAjuBot._format_events(events)`: rewrites each integer `time` field
in place, builds one line per event and joins them with newlines.  Returns
the reply text together with the mutated list. -/
def format_events (render : Int → String) (events : List EventRec) :
    String × List EventRec :=
  let events' := events.map (format_event render)
  (String.intercalate ("\n") (events'.map eventLine), events')

/-! ## TTL cache (`Resources.cache`, `get_events`, `get_packt_free_book`)

Modelled from the spec: the cache itself is the beaker `CacheManager`
library (not under `src/`); §4.1 gives its contract `get_or_compute(key,
ttl, compute)`: a live entry is returned without invoking `compute`,
otherwise `compute` runs exactly once and the result is stored with expiry
`now + ttl`. -/

/-- The TTL cache store: entries `(key, value, expires_at)`, most recent
write first. -/
structure TtlCache (α : Type) where
  entries : List (String × α × Int)
deriving DecidableEq

/-- Modelled from the spec: `get_or_compute(key, ttl, compute)` of §4.1.
Returns the value, the updated store, and how many times `compute` was
invoked (0 or 1), so that invocation counting is part of the state. -/
def get_or_compute {α : Type} (c : TtlCache α) (key : String) (ttl now : Int)
    (compute : Unit → α) : α × TtlCache α × Nat :=
  match c.entries.find? (fun e => decide (e.1 = key)) with
  | some e =>
    if now < e.2.2 then (e.2.1, c, 0)
    else
      let v := compute ()
      (v, ⟨(key, v, now + ttl) :: c.entries⟩, 1)
  | none =>
    let v := compute ()
    (v, ⟨(key, v, now + ttl) :: c.entries⟩, 1)

/-- Embedding of `Resources.get_events`, decorated `@cache.cache('get_events',
expire=600)`; `generate` abstracts the network call `generate_events`. -/
def get_events (c : TtlCache (List EventRec)) (now : Int)
    (generate : Unit → List EventRec) : List EventRec × TtlCache (List EventRec) × Nat :=
  get_or_compute c ("get_events") 600 now generate

/-- Embedding of `Resources.get_packt_free_book`, decorated `@cache.cache(
'get_packt_free_book', expire=600)`; `fetch` abstracts the page download
plus `extract_packt_free_book`. -/
def get_packt_free_book (c : TtlCache (String × Int)) (now : Int)
    (fetch : Unit → String × Int) : (String × Int) × TtlCache (String × Int) × Nat :=
  get_or_compute c ("get_packt_free_book") 600 now fetch

/-! ## Reply deduplication (`GDGAjuBot._smart_reply`)

The store primitives (`Resources.cache.get_cache(key, expire=600)` and the
per-chat dictionary it holds) are the beaker library, not under `src/`;
they are modelled from the spec §3/§4.4: one `DedupRecord` per
`(conversation, category)` key, expiring after 600 time-units, replaced
wholesale when genuinely new content is sent. -/

/-- Modelled from the spec: `util.extract_command` (module
`gdgajubot.util` is not under `src/`).  Per §4.4 the dedup category "is
derived deterministically from the reply's textual command marker (e.g.,
the leading command token that produced it)": the leading token of a text
starting with `/`, cut at whitespace and at a `@botname` suffix; `none`
otherwise. -/
def extract_command (text : String) : Option String :=
  match text.data with
  | '/' :: _ =>
    some ⟨(text.data.takeWhile (fun c => decide (c ≠ ' '))).takeWhile
            (fun c => decide (c ≠ '@'))⟩
  | _ => none

/-- Python `"p%s" % x` rendering of the optional command: `None` prints as
`"None"`. -/
def catString : Option String → String
  | some s => s
  | none => "None"

/-- The beaker cache name `"p%s" % util.extract_command(text)` combined
with the per-chat key `message.chat.id`. -/
def dedupKey (text : String) (chatId : Int) : String × Int :=
  ("p" ++ catString (extract_command text), chatId)

/-- Modelled from the spec (§3 `DedupRecord`): last reply text, the message
id that carried it, and the instant the record was written (it lives for
600 time-units). -/
structure DedupRecord where
  text : String
  message_id : Nat
  updated_at : Int
deriving DecidableEq

/-- The dedup store: association list keyed by `(cache name, chat id)`,
most recent write first. -/
abbrev DedupStore : Type := List ((String × Int) × DedupRecord)

/-- Look up the dedup record for a key (most recent write wins). -/
def lookupRec (st : DedupStore) (k : String × Int) : Option DedupRecord :=
  (st.find? (fun e => decide (e.1 = k))).map (fun e => e.2)

/-- Write/replace the dedup record for a key. -/
def writeRec (st : DedupStore) (k : String × Int) (r : DedupRecord) : DedupStore :=
  (k, r) :: st

/-- A message accepted by the chat transport: either a real content send or
the short pointer reply `"Clique para ver a última resposta"` referencing
an earlier message id. -/
inductive SentMsg where
  | real (chatId : Int) (text : String) (id : Nat)
  | pointer (chatId : Int) (replyTo : Nat) (id : Nat)
deriving DecidableEq

/-- The chat transport: transcript of accepted sends and the next message
id it will hand out. -/
structure Transport where
  sent : List SentMsg
  nextId : Nat
deriving DecidableEq

/-- Transport send of real content (`bot.reply_to`): returns the new
transcript and the id of the sent message. -/
def sendReal (tr : Transport) (chatId : Int) (text : String) : Transport × Nat :=
  (⟨tr.sent ++ [.real chatId text tr.nextId], tr.nextId + 1⟩, tr.nextId)

/-- Transport send of the pointer reply (`bot.send_message(...,
reply_to_message_id=...)`). -/
def sendPointer (tr : Transport) (chatId : Int) (replyTo : Nat) : Transport :=
  ⟨tr.sent ++ [.pointer chatId replyTo tr.nextId], tr.nextId + 1⟩

/-- Whether a live dedup record with exactly the candidate text exists:
the condition under which `_smart_reply` sends the pointer reply instead
of real content. -/
def dedupHit (st : DedupStore) (k : String × Int) (text : String) (now : Int) : Bool :=
  match lookupRec st k with
  | some r => decide (now < r.updated_at + 600 ∧ r.text = text)
  | none => false

/-- Embedding of `GDGAjuBot._smart_reply(message, text)`.  `chatType` is
`message.chat.type`; `sendOk` tells whether the transport accepts the send
this call performs (a raised send error is the `.error` result, carrying
the unchanged store and transcript).  On groups and supergroups a live
record with the same text yields a pointer reply and leaves the store
untouched; otherwise the content is sent for real and the record is
written with a fresh timestamp.  Elsewhere (private chats, channels) the
content is always sent for real and the store is never consulted. -/
def smart_reply (chatType : String) (chatId : Int) (text : String) (now : Int)
    (sendOk : Bool) (st : DedupStore) (tr : Transport) :
    Except (DedupStore × Transport) (DedupStore × Transport) :=
  if chatType = "group" ∨ chatType = "supergroup" then
    let k := dedupKey text chatId
    match lookupRec st k with
    | some r =>
      if now < r.updated_at + 600 ∧ r.text = text then
        if sendOk then .ok (st, sendPointer tr chatId r.message_id)
        else .error (st, tr)
      else
        if sendOk then
          let s := sendReal tr chatId text
          .ok (writeRec st k ⟨text, s.2, now⟩, s.1)
        else .error (st, tr)
    | none =>
      if sendOk then
        let s := sendReal tr chatId text
        .ok (writeRec st k ⟨text, s.2, now⟩, s.1)
      else .error (st, tr)
  else
    if sendOk then .ok (st, (sendReal tr chatId text).1)
    else .error (st, tr)

/-! ## Packt free-book extractor (`book_re`, `Resources.extract_packt_free_book`)

The primary strategy is the `book_re` regular expression: a chain of
literal pieces joined by lazy `(?s).*?` gaps.  A lazy chain match is
embedded as a forward scan: each piece is located at its first occurrence
at or after the end of the previous one.  The fallback strategy is
`BeautifulSoup(content, 'html.parser')` plus the two CSS selector calls;
the parser is embedded for well-formed markup fragments (lower-case tags,
double-quoted attributes), which covers every document the claims range
over. -/

/-- Python `\s` (also used in `str.strip`): space, tab, newline, carriage
return, vertical tab, form feed. -/
def pyIsSpace (c : Char) : Bool :=
  c == ' ' || c == '\t' || c == '\n' || c == '\r' || c == '\x0b' || c == '\x0c'

/-- Does `cs` start with `pat`? -/
def startsList : List Char → List Char → Bool
  | [], _ => true
  | _ :: _, [] => false
  | p :: ps, c :: cs => p == c && startsList ps cs

/-- Scan for the first occurrence of the literal `pat`; return what
follows it (the lazy-gap step `.*?pat` of `book_re`). -/
def dropAfterSub (pat : List Char) : List Char → Option (List Char)
  | [] => if startsList pat [] then some [] else none
  | c :: cs =>
    if startsList pat (c :: cs) then some ((c :: cs).drop pat.length)
    else dropAfterSub pat cs

/-- Scan for the first occurrence of `tag` followed by a space or `>`
(the `<div[ >]` and `<h2[ >]` atoms of `book_re`); return what follows the
bracket character. -/
def dropAfterTagOpen (tag : List Char) : List Char → Option (List Char)
  | [] => none
  | c :: cs =>
    if startsList tag (c :: cs) then
      match (c :: cs).drop tag.length with
      | d :: ds =>
        if d == ' ' || d == '>' then some ds else dropAfterTagOpen tag cs
      | [] => dropAfterTagOpen tag cs
    else dropAfterTagOpen tag cs

/-- Can `\s*` followed by the literal `close` match here? -/
def wsThenLit (close : List Char) (cs : List Char) : Bool :=
  startsList close (cs.dropWhile pyIsSpace)

/-- The lazy capture `(.*?)\s*</h2>`: the shortest prefix whose remainder
is whitespace followed by `close`. -/
def readTitle (close : List Char) : List Char → Option (List Char)
  | [] => if wsThenLit close [] then some [] else none
  | c :: cs =>
    if wsThenLit close (c :: cs) then some []
    else (readTitle close cs).map (fun t => c :: t)

/-- Value of a digit string, as Python `int` reads one. -/
def digitsToNat (ds : List Char) : Nat :=
  ds.foldl (fun n c => n * 10 + (c.toNat - 48)) 0

/-- The quoted marker `"deal-of-the-day"` that anchors `book_re`. -/
def markerQ : List Char := '"' :: ("deal-of-the-day").data ++ ['"']

/-- Literal `<div` of the `<div[ >]` atoms. -/
def divTag : List Char := ("<div").data

/-- Literal `<h2` of the `<h2[ >]` atom. -/
def h2Tag : List Char := ("<h2").data

/-- The literal span prefix of `book_re`, up to the countdown capture. -/
def spanLit : List Char :=
  ("<span class=\"packt-js-countdown\" data-countdown-to=\"").data

/-- The literal following the countdown capture. -/
def spanClose : List Char := ("\"></span>").data

/-- Closing tag ending the title capture. -/
def h2Close : List Char := ("</h2>").data

/-- The primary strategy: `book_re.search` followed by
`(m.group(2), int(m.group(1)))`.  Follows the atoms of `book_re` in
order: quoted marker, three `<div[ >]`, `</div>`, `<div[ >]`, the span
literal with its greedy digit capture, then `<h2[ >]\s*(.*?)\s*</h2>`.
Any failed step is the caught exception of the `try` block (`none`). -/
def primaryExtract (cs : List Char) : Option (String × Nat) := do
  let r0 ← dropAfterSub markerQ cs
  let r1 ← dropAfterTagOpen divTag r0
  let r2 ← dropAfterTagOpen divTag r1
  let r3 ← dropAfterTagOpen divTag r2
  let r4 ← dropAfterSub (("</div>").data) r3
  let r5 ← dropAfterTagOpen divTag r4
  let r6 ← dropAfterSub spanLit r5
  let digits := r6.takeWhile Char.isDigit
  if digits = [] then none else
  let r7 := r6.drop digits.length
  if startsList spanClose r7 then do
    let r8 := r7.drop spanClose.length
    let r9 ← dropAfterTagOpen h2Tag r8
    let title ← readTitle h2Close (r9.dropWhile pyIsSpace)
    pure (⟨title⟩, digitsToNat digits)
  else none

/-- A node of the parsed document tree (`BeautifulSoup`): an element with
tag, attributes and children, or a text node. -/
inductive Node where
  | elem (tag : String) (attrs : List (String × String)) (children : List Node)
  | text (s : String)

/-- Characters allowed in a tag name. -/
def isNameChar (c : Char) : Bool := c.isAlpha || c.isDigit || c == '-'

/-- Characters allowed in an attribute name. -/
def isAttrNameChar (c : Char) : Bool :=
  !(pyIsSpace c) && c != '=' && c != '>' && c != '/' && c != '"'

/-- Reads the attribute list of an open tag, consuming the closing `>`.
Returns the attributes and the remaining input.  `fuel` bounds the number
of attributes (each well-formed attribute consumes input). -/
def readAttrs (fuel : Nat) (cs : List Char) : List (String × String) × List Char :=
  match fuel with
  | 0 => ([], cs)
  | fuel + 1 =>
    let cs1 := cs.dropWhile pyIsSpace
    match cs1 with
    | [] => ([], [])
    | c :: rest =>
      if c = '>' then ([], rest)
      else if c = '/' then ([], (rest.dropWhile (fun d => decide (d ≠ '>'))).drop 1)
      else
        let name := cs1.takeWhile isAttrNameChar
        let afterName := cs1.drop name.length
        if afterName.take 2 = ['=', '"'] then
          let rest2 := afterName.drop 2
          let value := rest2.takeWhile (fun d => decide (d ≠ '"'))
          let afterVal := (rest2.drop value.length).drop 1
          let p := readAttrs fuel afterVal
          ((⟨name⟩, ⟨value⟩) :: p.1, p.2)
        else
          let p := readAttrs fuel afterName
          ((⟨name⟩, "") :: p.1, p.2)

/-- Consume a closing tag `</...>` if one starts here. -/
def skipCloseTag (cs : List Char) : List Char :=
  if cs.take 2 = ['<', '/'] then (cs.dropWhile (fun d => decide (d ≠ '>'))).drop 1
  else cs

/-- The `html.parser` pass of the fallback strategy, for well-formed
fragments: parses a sibling sequence, stopping at a closing tag or at the
end of input.  Returns the nodes and the unconsumed remainder; `fuel`
bounds the recursion (one unit per node or nesting level). -/
def parseNodes (fuel : Nat) (cs : List Char) : List Node × List Char :=
  match fuel with
  | 0 => ([], cs)
  | fuel + 1 =>
    match cs with
    | [] => ([], [])
    | c :: rest =>
      if c = '<' then
        if rest.take 1 = ['/'] then ([], c :: rest)
        else
          let tag := rest.takeWhile isNameChar
          let afterName := rest.drop tag.length
          let pa := readAttrs (afterName.length + 1) afterName
          let pc := parseNodes fuel pa.2
          let ps := parseNodes fuel (skipCloseTag pc.2)
          (Node.elem ⟨tag⟩ pa.1 pc.1 :: ps.1, ps.2)
      else
        let txt := (c :: rest).takeWhile (fun d => decide (d ≠ '<'))
        let p := parseNodes fuel ((c :: rest).drop txt.length)
        (Node.text ⟨txt⟩ :: p.1, p.2)

/-- All attribute values occurring anywhere in a forest (document order). -/
def attrValsList : List Node → List String
  | [] => []
  | Node.elem _ attrs children :: rest =>
    attrs.map (fun a => a.2) ++ attrValsList children ++ attrValsList rest
  | Node.text _ :: rest => attrValsList rest

/-- First value bound to an attribute name (`tag.attrs[name]` access and
CSS attribute matching both see the first binding). -/
def attrValue (attrs : List (String × String)) (name : String) : Option String :=
  (attrs.find? (fun a => decide (a.1 = name))).map (fun a => a.2)

/-- The id selector `#idval` over a forest: first element in document
order whose `id` attribute equals `idval` (`page.select_one('#...')`).
`fuel` bounds the recursion over the forest. -/
def findById (fuel : Nat) (nodes : List Node) (idval : String) : Option Node :=
  match fuel with
  | 0 => none
  | fuel + 1 =>
    match nodes with
    | [] => none
    | Node.elem t attrs children :: rest =>
      if attrValue attrs ("id") = some idval then some (Node.elem t attrs children)
      else
        match findById fuel children idval with
        | some n => some n
        | none => findById fuel rest idval
    | Node.text _ :: rest => findById fuel rest idval

/-- Annotates each element child with its 1-based `nth-of-type` index
(count among preceding siblings of the same tag, plus one). -/
def annotateAux (seen : List (String × Nat)) : List Node → List (Node × Nat)
  | [] => []
  | Node.text _ :: rest => annotateAux seen rest
  | Node.elem t attrs ch :: rest =>
    let i := (match seen.find? (fun p => decide (p.1 = t)) with
              | some p => p.2
              | none => 0) + 1
    (Node.elem t attrs ch, i) :: annotateAux ((t, i) :: seen) rest

/-- Element children of a node with their `nth-of-type` indices. -/
def annotateTypeIdx (children : List Node) : List (Node × Nat) :=
  annotateAux [] children

/-- All proper descendants of a node, in document order, each with its
`nth-of-type` index.  `fuel` bounds the tree depth. -/
def descendantsOf (fuel : Nat) (n : Node) : List (Node × Nat) :=
  match fuel with
  | 0 => []
  | fuel + 1 =>
    match n with
    | .text _ => []
    | .elem _ _ children =>
      (annotateTypeIdx children).flatMap (fun p => p :: descendantsOf fuel p.1)

/-- Does an annotated element match one compound selector
`tag` / `tag:nth-of-type(i)`? -/
def matchesComp (tag : String) (nth : Option Nat) (p : Node × Nat) : Bool :=
  match p.1 with
  | .elem t _ _ =>
    decide (t = tag) && (match nth with
                         | none => true
                         | some i => decide (p.2 = i))
  | .text _ => false

/-- A descendant-combinator selector chain (`element.select_one`): each
compound selector is matched by a descendant of the previous match; the
final match is the returned element. -/
def selectChain (fuel : Nat) : List (String × Option Nat) → Node → Option Node
  | [], _ => none
  | [c], root =>
    ((descendantsOf fuel root).find? (matchesComp c.1 c.2)).map (fun p => p.1)
  | c :: rest, root =>
    (descendantsOf fuel root).findSome? (fun p =>
      if matchesComp c.1 c.2 p then selectChain fuel rest p.1 else none)

/-- Splits a character list into maximal whitespace-free tokens; `acc`
holds the reversed current token. -/
def tokensAux : List Char → List Char → List (List Char)
  | [], acc => if acc = [] then [] else [acc.reverse]
  | c :: rest, acc =>
    if pyIsSpace c then
      if acc = [] then tokensAux rest [] else acc.reverse :: tokensAux rest []
    else tokensAux rest (c :: acc)

/-- Does a `class` attribute carry the given class token (CSS class
matching splits the attribute on whitespace)? -/
def hasClassToken (attrs : List (String × String)) (tok : String) : Bool :=
  match attrValue attrs ("class") with
  | some cls => (tokensAux cls.data []).contains tok.data
  | none => false

/-- The selector `tag.tok` under a root: first descendant element of the
given tag carrying the class token. -/
def selectClassTag (fuel : Nat) (root : Node) (tag tok : String) : Option Node :=
  ((descendantsOf fuel root).find? (fun p =>
    match p.1 with
    | .elem t attrs _ => decide (t = tag) && hasClassToken attrs tok
    | .text _ => false)).map (fun p => p.1)

/-- Concatenated text of a subtree (`tag.text`). -/
def textOf (fuel : Nat) (n : Node) : String :=
  match fuel with
  | 0 => ""
  | fuel + 1 =>
    match n with
    | .text s => s
    | .elem _ _ children => String.join (children.map (textOf fuel))

/-- Python `str.strip()`: drop leading and trailing whitespace. -/
def stripPy (s : String) : String :=
  ⟨((s.data.dropWhile pyIsSpace).reverse.dropWhile pyIsSpace).reverse⟩

/-- Python `int(s)` on the digit strings that countdown attributes carry
(other accepted `int` forms — signs, surrounding whitespace — do not occur
in these documents and are embedded as failure). -/
def parseIntOpt (s : String) : Option Nat :=
  if s.data ≠ [] ∧ s.data.all Char.isDigit then some (digitsToNat s.data)
  else none

/-- The structural path `'div div div:nth-of-type(2) div:nth-of-type(2)
h2'` of the fallback strategy. -/
def bookChain : List (String × Option Nat) :=
  [("div", none), ("div", none), ("div", some 2), ("div", some 2), ("h2", none)]

/-- The fallback strategy: parse the document, locate
`#deal-of-the-day`, follow the structural path to the heading, read the
countdown attribute of `span.packt-js-countdown`, and return the trimmed
heading text with the integer countdown.  A missing element is the
uncaught `AttributeError`/`KeyError` of the Python code (`none`). -/
def fallbackExtract (cs : List Char) : Option (String × Nat) := do
  let nodes := (parseNodes cs.length cs).1
  let deal ← findById cs.length nodes ("deal-of-the-day")
  let bookEl ← selectChain cs.length bookChain deal
  let span ← selectClassTag cs.length deal ("span") ("packt-js-countdown")
  let expStr ← (match span with
                | .elem _ attrs _ => attrValue attrs ("data-countdown-to")
                | .text _ => none)
  let n ← parseIntOpt expStr
  pure (stripPy (textOf cs.length bookEl), n)

/-- Embedding of `Resources.extract_packt_free_book(content)`: the primary
regex strategy, falling back to the structural strategy when it fails
(the `try`/`except` plus fall-through of the source). -/
def extract_packt_free_book (content : String) : Option (String × Nat) :=
  match primaryExtract content.data with
  | some r => some r
  | none => fallbackExtract content.data


/-- Synthetic offer document matching `book_re`: marker, three nested
`div`s, a closed sibling `div`, the second `div`, the countdown span with
the attribute order the regex expects, then the heading. -/
def bookDoc1 : String :=
  "<div id=\"deal-of-the-day\"><div><div><div>x</div><div><span class=\"packt-js-countdown\" data-countdown-to=\"1700000000\"></span><h2> Example Book </h2></div></div></div></div>"

/-- Synthetic offer document on which the regex fails (the span carries
its attributes in the opposite order, so the literal of `book_re` never
occurs) while the structural path of the fallback still resolves. -/
def bookDoc2 : String :=
  "<div id=\"deal-of-the-day\"><div><div><div></div><div><div></div><div><h2> Example Book </h2><span data-countdown-to=\"1700000000\" class=\"packt-js-countdown\"></span></div></div></div></div></div>"

/-- Suffix relation on character lists. -/
def SuffixOf (r cs : List Char) : Prop := ∃ a, cs = a ++ r

/-- Contiguous-occurrence (substring) relation on character lists. -/
def SubsegOf (p cs : List Char) : Prop := ∃ a b, cs = a ++ p ++ b

/-! ## Theorems -/

theorem suffixOf_trans {r q cs : List Char} (h1 : SuffixOf r q) (h2 : SuffixOf q cs) :
    SuffixOf r cs := by
  obtain ⟨a, ha⟩ := h1
  obtain ⟨b, hb⟩ := h2
  exact ⟨b ++ a, by rw [hb, ha, List.append_assoc]⟩

theorem dropWhile_suffixOf (p : Char → Bool) (cs : List Char) :
    SuffixOf (cs.dropWhile p) cs := by
  induction cs with
  | nil => exact ⟨[], rfl⟩
  | cons c rest ih =>
    cases hp : p c
    · exact ⟨[], by simp [List.dropWhile, hp]⟩
    · obtain ⟨a, ha⟩ := ih
      refine ⟨c :: a, ?_⟩
      simp only [List.dropWhile, hp]
      exact congrArg (fun t => c :: t) ha

theorem drop_suffixOf (n : Nat) (cs : List Char) : SuffixOf (cs.drop n) cs :=
  ⟨cs.take n, (List.take_append_drop n cs).symm⟩

theorem subsegOf_of_suffixOf {p r cs : List Char} (h1 : SubsegOf p r)
    (h2 : SuffixOf r cs) : SubsegOf p cs := by
  obtain ⟨a, b, hab⟩ := h1
  obtain ⟨c, hc⟩ := h2
  exact ⟨c ++ a, b, by rw [hc, hab]; simp [List.append_assoc]⟩

theorem subsegOf_compose {p q cs : List Char} (h1 : SubsegOf p q)
    (h2 : SubsegOf q cs) : SubsegOf p cs := by
  obtain ⟨a, b, hab⟩ := h1
  obtain ⟨c, d, hcd⟩ := h2
  exact ⟨c ++ a, b ++ d, by rw [hcd, hab]; simp [List.append_assoc]⟩

theorem takeWhile_subsegOf (p : Char → Bool) {cs r : List Char}
    (h : SuffixOf r cs) : SubsegOf (r.takeWhile p) cs := by
  obtain ⟨a, ha⟩ := h
  exact ⟨a, r.dropWhile p, by rw [ha, List.append_assoc, List.takeWhile_append_dropWhile]⟩

theorem startsList_append (p r : List Char) : startsList p (p ++ r) = true := by
  induction p with
  | nil => rfl
  | cons c ps ih => simp [startsList, ih]

theorem startsList_exists {p cs : List Char} (h : startsList p cs = true) :
    ∃ r, cs = p ++ r := by
  induction p generalizing cs with
  | nil => exact ⟨cs, rfl⟩
  | cons c ps ih =>
    cases cs with
    | nil => exact absurd h (by simp [startsList])
    | cons d rest =>
      rw [startsList, Bool.and_eq_true, beq_iff_eq] at h
      obtain ⟨he, hs⟩ := h
      obtain ⟨r, hr⟩ := ih hs
      exact ⟨r, by simp [he, hr]⟩

theorem dropAfterSub_some_subsegOf {p cs r : List Char}
    (h : dropAfterSub p cs = some r) : SubsegOf p cs := by
  induction cs with
  | nil =>
    rw [dropAfterSub] at h
    by_cases hs : startsList p [] = true
    · obtain ⟨t, ht⟩ := startsList_exists hs
      exact ⟨[], [], by simp_all⟩
    · simp [hs] at h
  | cons c rest ih =>
    rw [dropAfterSub] at h
    by_cases hs : startsList p (c :: rest) = true
    · obtain ⟨t, ht⟩ := startsList_exists hs
      exact ⟨[], t, by simpa using ht⟩
    · rw [if_neg hs] at h
      exact subsegOf_of_suffixOf (ih h) ⟨[c], rfl⟩

theorem dropAfterSub_isSome_append (p a b : List Char) :
    (dropAfterSub p (a ++ (p ++ b))).isSome = true := by
  induction a with
  | nil =>
    simp only [List.nil_append]
    cases hpb : p ++ b with
    | nil =>
      have hp : p = [] := by cases p <;> simp_all
      subst hp
      simp [dropAfterSub, startsList]
    | cons c rest =>
      have hstart : startsList p (p ++ b) = true := startsList_append p b
      rw [hpb] at hstart
      simp [dropAfterSub, hstart]
  | cons c a ih =>
    rw [List.cons_append, dropAfterSub]
    by_cases hs : startsList p (c :: (a ++ (p ++ b))) = true
    · simp [hs]
    · simp [hs, ih]

theorem subsegOf_dropAfterSub_isSome {p cs : List Char} (h : SubsegOf p cs) :
    (dropAfterSub p cs).isSome = true := by
  obtain ⟨a, b, hab⟩ := h
  rw [hab, List.append_assoc]
  exact dropAfterSub_isSome_append p a b

theorem suffixOf_cons (c : Char) (r : List Char) : SuffixOf r (c :: r) := ⟨[c], rfl⟩

theorem readAttrs_suffixOf (fuel : Nat) :
    ∀ cs : List Char, SuffixOf (readAttrs fuel cs).2 cs := by
  induction fuel with
  | zero => intro cs; exact ⟨[], rfl⟩
  | succ fuel ih =>
    intro cs
    simp only [readAttrs]
    cases hd : cs.dropWhile pyIsSpace with
    | nil => exact ⟨cs, by simp⟩
    | cons c rest =>
      dsimp only
      have hs1 : SuffixOf (c :: rest) cs := hd ▸ dropWhile_suffixOf pyIsSpace cs
      have hrest : SuffixOf rest cs := suffixOf_trans (suffixOf_cons c rest) hs1
      by_cases hgt : c = '>'
      · simpa [hgt] using hrest
      · by_cases hsl : c = '/'
        · simp only [if_neg hgt, if_pos hsl]
          exact suffixOf_trans
            (suffixOf_trans (drop_suffixOf 1 _) (dropWhile_suffixOf _ rest)) hrest
        · simp only [if_neg hgt, if_neg hsl]
          have hAN : SuffixOf ((c :: rest).drop
              (((c :: rest).takeWhile isAttrNameChar).length)) cs :=
            suffixOf_trans (drop_suffixOf _ _) hs1
          by_cases heq : ((c :: rest).drop
              (((c :: rest).takeWhile isAttrNameChar).length)).take 2 = ['=', '"']
          · simp only [if_pos heq]
            exact suffixOf_trans (ih _)
              (suffixOf_trans (drop_suffixOf 1 _)
                (suffixOf_trans (drop_suffixOf _ _)
                  (suffixOf_trans (drop_suffixOf 2 _) hAN)))
          · simp only [if_neg heq]
            exact suffixOf_trans (ih _) hAN

theorem readAttrs_vals (fuel : Nat) :
    ∀ cs : List Char, ∀ pr ∈ (readAttrs fuel cs).1,
      pr.2 = "" ∨ SubsegOf pr.2.data cs := by
  induction fuel with
  | zero => intro cs pr hpr; exact absurd hpr (by simp [readAttrs])
  | succ fuel ih =>
    intro cs pr hpr
    simp only [readAttrs] at hpr
    revert hpr
    cases hd : cs.dropWhile pyIsSpace with
    | nil => intro hpr; exact absurd hpr (by simp)
    | cons c rest =>
      intro hpr
      dsimp only at hpr
      have hs1 : SuffixOf (c :: rest) cs := hd ▸ dropWhile_suffixOf pyIsSpace cs
      have hAN : SuffixOf ((c :: rest).drop
          (((c :: rest).takeWhile isAttrNameChar).length)) cs :=
        suffixOf_trans (drop_suffixOf _ _) hs1
      by_cases hgt : c = '>'
      · exact absurd hpr (by simp [hgt])
      · by_cases hsl : c = '/'
        · exact absurd hpr (by simp [hgt, hsl])
        · rw [if_neg hgt, if_neg hsl] at hpr
          by_cases heq : ((c :: rest).drop
              (((c :: rest).takeWhile isAttrNameChar).length)).take 2 = ['=', '"']
          · rw [if_pos heq] at hpr
            rcases List.mem_cons.mp hpr with hfst | hmore
            · right
              rw [hfst]
              refine subsegOf_of_suffixOf
                ?_ (suffixOf_trans (drop_suffixOf 2 _) hAN)
              exact takeWhile_subsegOf _ ⟨[], rfl⟩
            · exact (ih _ pr hmore).imp id
                (fun hsub => subsegOf_of_suffixOf hsub
                  (suffixOf_trans (drop_suffixOf 1 _)
                    (suffixOf_trans (drop_suffixOf _ _)
                      (suffixOf_trans (drop_suffixOf 2 _) hAN))))
          · rw [if_neg heq] at hpr
            rcases List.mem_cons.mp hpr with hfst | hmore
            · left; rw [hfst]
            · exact (ih _ pr hmore).imp id
                (fun hsub => subsegOf_of_suffixOf hsub hAN)

theorem skipCloseTag_suffixOf (cs : List Char) : SuffixOf (skipCloseTag cs) cs := by
  simp only [skipCloseTag]
  by_cases h : cs.take 2 = ['<', '/']
  · rw [if_pos h]
    exact suffixOf_trans (drop_suffixOf 1 _) (dropWhile_suffixOf _ cs)
  · rw [if_neg h]
    exact ⟨[], rfl⟩

theorem parseNodes_suffixOf (fuel : Nat) :
    ∀ cs : List Char, SuffixOf (parseNodes fuel cs).2 cs := by
  induction fuel with
  | zero => intro cs; exact ⟨[], rfl⟩
  | succ fuel ih =>
    intro cs
    cases cs with
    | nil => simp only [parseNodes]; exact ⟨[], rfl⟩
    | cons c rest =>
      simp only [parseNodes]
      by_cases hlt : c = '<'
      · by_cases hcl : rest.take 1 = ['/']
        · simp only [if_pos hlt, if_pos hcl]
          exact ⟨[], rfl⟩
        · simp only [if_pos hlt, if_neg hcl]
          refine suffixOf_trans (ih _) ?_
          refine suffixOf_trans (skipCloseTag_suffixOf _) ?_
          refine suffixOf_trans (ih _) ?_
          exact suffixOf_trans (readAttrs_suffixOf _ _)
            (suffixOf_trans (drop_suffixOf _ _) (suffixOf_cons c rest))
      · simp only [if_neg hlt]
        exact suffixOf_trans (ih _) (drop_suffixOf _ _)

theorem parseNodes_vals (fuel : Nat) :
    ∀ (cs : List Char) (v : String), v ∈ attrValsList (parseNodes fuel cs).1 →
      v = "" ∨ SubsegOf v.data cs := by
  induction fuel with
  | zero => intro cs v hv; exact absurd hv (by simp [parseNodes, attrValsList])
  | succ fuel ih =>
    intro cs v hv
    cases cs with
    | nil => exact absurd hv (by simp [parseNodes, attrValsList])
    | cons c rest =>
      simp only [parseNodes] at hv
      by_cases hlt : c = '<'
      · by_cases hcl : rest.take 1 = ['/']
        · rw [if_pos hlt, if_pos hcl] at hv
          exact absurd hv (by simp [attrValsList])
        · rw [if_pos hlt, if_neg hcl] at hv
          dsimp only at hv
          simp only [attrValsList, List.mem_append] at hv
          have hAN : SuffixOf (rest.drop ((rest.takeWhile isNameChar).length))
              (c :: rest) :=
            suffixOf_trans (drop_suffixOf _ _) (suffixOf_cons c rest)
          have hpa2 : SuffixOf
              (readAttrs ((rest.drop ((rest.takeWhile isNameChar).length)).length + 1)
                (rest.drop ((rest.takeWhile isNameChar).length))).2 (c :: rest) :=
            suffixOf_trans (readAttrs_suffixOf _ _) hAN
          rcases hv with (h1 | h2) | h3
          · rcases List.mem_map.mp h1 with ⟨pr, hpr, hv2⟩
            rcases readAttrs_vals _ _ pr hpr with he | hsub
            · exact Or.inl (hv2 ▸ he)
            · exact Or.inr (hv2 ▸ subsegOf_of_suffixOf hsub hAN)
          · exact (ih _ v h2).imp id
              (fun hsub => subsegOf_of_suffixOf hsub hpa2)
          · refine (ih _ v h3).imp id (fun hsub => subsegOf_of_suffixOf hsub ?_)
            exact suffixOf_trans (skipCloseTag_suffixOf _)
              (suffixOf_trans (parseNodes_suffixOf fuel _) hpa2)
      · rw [if_neg hlt] at hv
        dsimp only at hv
        simp only [attrValsList] at hv
        exact (ih _ v hv).imp id
          (fun hsub => subsegOf_of_suffixOf hsub (drop_suffixOf _ _))

theorem findById_mem (fuel : Nat) :
    ∀ (nodes : List Node) (idval : String) (n : Node),
      findById fuel nodes idval = some n → idval ∈ attrValsList nodes := by
  induction fuel with
  | zero => intro nodes idval n h; exact absurd h (by simp [findById])
  | succ fuel ih =>
    intro nodes idval n h
    cases nodes with
    | nil => exact absurd h (by simp [findById])
    | cons nd rest =>
      cases nd with
      | text s =>
        simp only [findById] at h
        simp only [attrValsList]
        exact ih rest idval n h
      | elem t attrs ch =>
        simp only [findById] at h
        simp only [attrValsList, List.mem_append]
        by_cases ha : attrValue attrs ("id") = some idval
        · left; left
          rcases Option.map_eq_some'.mp ha with ⟨pr, hfind, hv⟩
          exact List.mem_map.mpr ⟨pr, List.mem_of_find?_eq_some hfind, hv⟩
        · rw [if_neg ha] at h
          cases hc : findById fuel ch idval with
          | some m => exact Or.inl (Or.inr (ih ch idval m hc))
          | none =>
            rw [hc] at h
            exact Or.inr (ih rest idval n h)

/-- C4: a document in which the marker string `deal-of-the-day` does not
occur at all defeats both strategies — the regex cannot match its quoted
marker literal and the structural strategy finds no `#deal-of-the-day`
element — so the extractor fails. -/
theorem extractor_no_marker_fails (content : String)
    (h : dropAfterSub (("deal-of-the-day").data) content.data = none) :
    extract_packt_free_book content = none := by
  have hno : ¬ SubsegOf (("deal-of-the-day").data) content.data := by
    intro hs
    have hsome := subsegOf_dropAfterSub_isSome hs
    rw [h] at hsome
    exact absurd hsome (by simp)
  have hmark : dropAfterSub markerQ content.data = none := by
    cases hm : dropAfterSub markerQ content.data with
    | none => rfl
    | some r =>
      exfalso
      apply hno
      refine subsegOf_compose ?_ (dropAfterSub_some_subsegOf hm)
      exact ⟨['\x22'], ['\x22'], by simp [markerQ]⟩
  have hprim : primaryExtract content.data = none := by
    simp [primaryExtract, hmark]
  have hfind : findById content.length
      (parseNodes content.length content.data).1 ("deal-of-the-day") = none := by
    cases hf : findById content.length
        (parseNodes content.length content.data).1 ("deal-of-the-day") with
    | none => rfl
    | some n =>
      exfalso
      have hmem := findById_mem _ _ _ _ hf
      rcases parseNodes_vals _ _ _ hmem with he | hsub
      · exact absurd he (by decide)
      · exact hno hsub
  have hfall : fallbackExtract content.data = none := by
    simp [fallbackExtract, hfind]
  simp [extract_packt_free_book, hprim, hfall]

/-- C4, witness: a document with no marker at all. -/
theorem extractor_no_marker_fails_witness :
    dropAfterSub (("deal-of-the-day").data)
      (("<html><body>nothing here</body></html>").data) = none ∧
    extract_packt_free_book ("<html><body>nothing here</body></html>") = none :=
  ⟨by decide, extractor_no_marker_fails ("<html><body>nothing here</body></html>") (by decide)⟩

/-- C1, counterexample: with 45 seconds remaining, `_book_response` does
not produce the `"30 segundos"` warning — 30 is not a threshold greater
than or equal to 45. -/
theorem c1_counterexample :
    book_response ("B") 45 0 ≠ bookBase ("B") ++ tierWarning ("30 segundos") := by
  decide

/-- C1 (amended): with 45 seconds remaining, `_book_response` selects the
`"1 minuto"` tier — the smallest configured threshold at least the
remaining seconds — and for an already expired offer (negative remaining
seconds) the smallest threshold, `"30 segundos"`, is selected. -/
theorem book_response_tier_selection (book : String) (expires now : Int)
    (h : expires - now < 0) :
    book_response book 45 0 = bookBase book ++ tierWarning ("1 minuto") ∧
    book_response book expires now = bookBase book ++ tierWarning ("30 segundos") := by
  constructor
  · rfl
  · have hfind : timeleft.find? (fun p => decide (expires - now ≤ p.1))
        = some (30, "30 segundos") := by
      unfold timeleft
      rw [List.find?_cons_of_pos]
      exact decide_eq_true (by omega : expires - now ≤ (30:Int))
    simp only [book_response, hfind]

/-- C1, witness for the amended theorem at a concrete expired offer. -/
theorem book_response_tier_selection_witness :
    (-10 : Int) - 0 < 0 ∧
    (book_response ("X") 45 0 = bookBase ("X") ++ tierWarning ("1 minuto") ∧
     book_response ("X") (-10) 0 = bookBase ("X") ++ tierWarning ("30 segundos")) :=
  ⟨by decide, book_response_tier_selection ("X") (-10) 0 (by decide)⟩

/-- C10: `_format_events` is idempotent — re-formatting the mutated event
list yields the same reply text and leaves the list unchanged, so a cache
hit following a formatted cache miss renders identically. -/
theorem format_events_idempotent (render : Int → String) (events : List EventRec) :
    format_events render (format_events render events).2 = format_events render events := by
  have hfe : ∀ e : EventRec, format_event render (format_event render e)
      = format_event render e := by
    intro e
    cases he : e.time <;> simp [format_event, he]
  have hmap : (events.map (format_event render)).map (format_event render)
      = events.map (format_event render) := by
    induction events with
    | nil => rfl
    | cons a t ih => simp [hfe, ih]
  show format_events render (events.map (format_event render)) = _
  unfold format_events
  rw [hmap]

/-- C3: for both fetch operations, a second call within the 600-unit TTL
window performs no further invocation of the underlying path and returns
the identical value, while a call at or after expiry invokes the path
again. -/
theorem cache_hit_suppresses_recomputation (t1 t2 t3 : Int)
    (gen : Unit → List EventRec) (fetch : Unit → String × Int)
    (h2 : t2 < t1 + 600) (h3 : t1 + 600 ≤ t3) :
    get_events ⟨[]⟩ t1 gen
      = (gen (), ⟨[(("get_events"), gen (), t1 + 600)]⟩, 1) ∧
    get_events ⟨[(("get_events"), gen (), t1 + 600)]⟩ t2 gen
      = (gen (), ⟨[(("get_events"), gen (), t1 + 600)]⟩, 0) ∧
    (get_events ⟨[(("get_events"), gen (), t1 + 600)]⟩ t3 gen).2.2 = 1 ∧
    get_packt_free_book ⟨[]⟩ t1 fetch
      = (fetch (), ⟨[(("get_packt_free_book"), fetch (), t1 + 600)]⟩, 1) ∧
    get_packt_free_book ⟨[(("get_packt_free_book"), fetch (), t1 + 600)]⟩ t2 fetch
      = (fetch (), ⟨[(("get_packt_free_book"), fetch (), t1 + 600)]⟩, 0) ∧
    (get_packt_free_book ⟨[(("get_packt_free_book"), fetch (), t1 + 600)]⟩ t3 fetch).2.2 = 1 := by
  refine ⟨rfl, ?_, ?_, rfl, ?_, ?_⟩ <;>
    simp [get_events, get_packt_free_book, get_or_compute, List.find?, h2,
          not_lt.mpr h3]

/-- C3, witness at concrete instants 0, 5 and 600. -/
theorem cache_hit_suppresses_recomputation_witness :
    (5 : Int) < 0 + 600 ∧ (0 : Int) + 600 ≤ 600 ∧
    (get_events ⟨[]⟩ 0 (fun _ => [])
      = ([], ⟨[(("get_events"), [], 0 + 600)]⟩, 1) ∧
     get_events ⟨[(("get_events"), [], 0 + 600)]⟩ 5 (fun _ => [])
      = ([], ⟨[(("get_events"), [], 0 + 600)]⟩, 0) ∧
     (get_events ⟨[(("get_events"), [], 0 + 600)]⟩ 600 (fun _ => [])).2.2 = 1 ∧
     get_packt_free_book ⟨[]⟩ 0 (fun _ => (("b"), 0))
      = ((("b"), 0), ⟨[(("get_packt_free_book"), (("b"), 0), 0 + 600)]⟩, 1) ∧
     get_packt_free_book ⟨[(("get_packt_free_book"), (("b"), 0), 0 + 600)]⟩ 5 (fun _ => (("b"), 0))
      = ((("b"), 0), ⟨[(("get_packt_free_book"), (("b"), 0), 0 + 600)]⟩, 0) ∧
     (get_packt_free_book ⟨[(("get_packt_free_book"), (("b"), 0), 0 + 600)]⟩ 600
        (fun _ => (("b"), 0))).2.2 = 1) :=
  ⟨by decide, by decide,
   cache_hit_suppresses_recomputation 0 5 600 (fun _ => []) (fun _ => (("b"), 0))
     (by decide) (by decide)⟩

/-- Prepending the fixed `"p"` of the cache name is injective. -/
theorem pAppend_inj {s t : String} (h : ("p" ++ s : String) = "p" ++ t) : s = t := by
  have hd := congrArg String.data h
  rw [String.data_append, String.data_append] at hd
  exact String.ext (List.append_cancel_left hd)

/-- A command extracted from a reply text starts with the slash. -/
theorem extract_command_head {t s : String} (h : extract_command t = some s) :
    ∃ l, s.data = '/' :: l := by
  unfold extract_command at h
  cases ht : t.data with
  | nil => rw [ht] at h; exact absurd h (by simp)
  | cons c rest =>
    rw [ht] at h
    by_cases hc : c = '/'
    · subst hc
      simp only [Option.some.injEq] at h
      subst h
      simp [List.takeWhile]
    · exact absurd h (by cases c; simp_all)

/-- Distinct extracted commands give distinct beaker cache keys. -/
theorem dedupKey_ne {t1 t2 : String} (cid : Int)
    (h : extract_command t1 ≠ extract_command t2) :
    dedupKey t1 cid ≠ dedupKey t2 cid := by
  unfold dedupKey
  intro contra
  have hcat : catString (extract_command t1) = catString (extract_command t2) :=
    pAppend_inj (congrArg Prod.fst contra)
  cases h1 : extract_command t1 with
  | some s1 =>
    cases h2 : extract_command t2 with
    | some s2 =>
      rw [h1, h2] at hcat
      simp only [catString] at hcat
      subst hcat
      exact h (h1.trans h2.symm)
    | none =>
      rw [h1, h2] at hcat
      simp only [catString] at hcat
      obtain ⟨l, hl⟩ := extract_command_head h1
      have hdata := congrArg String.data hcat
      rw [hl] at hdata
      simp at hdata
  | none =>
    cases h2 : extract_command t2 with
    | some s2 =>
      rw [h1, h2] at hcat
      simp only [catString] at hcat
      obtain ⟨l, hl⟩ := extract_command_head h2
      have hdata := congrArg String.data hcat
      rw [hl] at hdata
      simp at hdata
    | none => exact h (h1.trans h2.symm)

/-- A record written under a different key is invisible to a lookup. -/
theorem lookupRec_write_ne {k1 k2 : String × Int} (st : DedupStore) (r : DedupRecord)
    (h : k1 ≠ k2) : lookupRec (writeRec st k1 r) k2 = lookupRec st k2 := by
  simp [lookupRec, writeRec, List.find?, h]

/-- C2: in a group conversation, sending the same text twice yields one
real transport send and one pointer reply referencing the first message
id; a subsequent different text of the same category is sent for real and
replaces the stored record. -/
theorem smart_reply_group_dedup (tA tB : String) (cid : Int)
    (hne : tA ≠ tB) (hcat : extract_command tB = extract_command tA) :
    smart_reply ("group") cid tA 0 true [] ⟨[], 0⟩
      = .ok ([(dedupKey tA cid, ⟨tA, 0, 0⟩)], ⟨[.real cid tA 0], 1⟩) ∧
    smart_reply ("group") cid tA 1 true [(dedupKey tA cid, ⟨tA, 0, 0⟩)]
        ⟨[.real cid tA 0], 1⟩
      = .ok ([(dedupKey tA cid, ⟨tA, 0, 0⟩)],
             ⟨[.real cid tA 0, .pointer cid 0 1], 2⟩) ∧
    smart_reply ("group") cid tB 2 true [(dedupKey tA cid, ⟨tA, 0, 0⟩)]
        ⟨[.real cid tA 0, .pointer cid 0 1], 2⟩
      = .ok ([(dedupKey tB cid, ⟨tB, 2, 2⟩), (dedupKey tA cid, ⟨tA, 0, 0⟩)],
             ⟨[.real cid tA 0, .pointer cid 0 1, .real cid tB 2], 3⟩) := by
  have hkey : dedupKey tB cid = dedupKey tA cid := by
    unfold dedupKey; rw [hcat]
  refine ⟨?_, ?_, ?_⟩
  · simp [smart_reply, lookupRec, writeRec, sendReal, List.find?]
  · simp [smart_reply, lookupRec, sendPointer, List.find?]
  · simp [smart_reply, hkey, lookupRec, writeRec, sendReal, List.find?, hne]

/-- C2, witness with texts `"A"`, `"B"` in chat 7. -/
theorem smart_reply_group_dedup_witness :
    ("A" : String) ≠ "B" ∧ extract_command ("B") = extract_command ("A") ∧
    (smart_reply ("group") 7 ("A") 0 true [] ⟨[], 0⟩
      = .ok ([(dedupKey ("A") 7, ⟨"A", 0, 0⟩)], ⟨[.real 7 ("A") 0], 1⟩) ∧
     smart_reply ("group") 7 ("A") 1 true [(dedupKey ("A") 7, ⟨"A", 0, 0⟩)]
        ⟨[.real 7 ("A") 0], 1⟩
      = .ok ([(dedupKey ("A") 7, ⟨"A", 0, 0⟩)],
             ⟨[.real 7 ("A") 0, .pointer 7 0 1], 2⟩) ∧
     smart_reply ("group") 7 ("B") 2 true [(dedupKey ("A") 7, ⟨"A", 0, 0⟩)]
        ⟨[.real 7 ("A") 0, .pointer 7 0 1], 2⟩
      = .ok ([(dedupKey ("B") 7, ⟨"B", 2, 2⟩), (dedupKey ("A") 7, ⟨"A", 0, 0⟩)],
             ⟨[.real 7 ("A") 0, .pointer 7 0 1, .real 7 ("B") 2], 3⟩)) :=
  ⟨by decide, by decide, smart_reply_group_dedup ("A") ("B") 7 (by decide) (by decide)⟩

/-- C5: replies whose extracted leading command tokens differ are tracked
under distinct dedup keys; a record written for one command is invisible
to the other's lookup, and against a store holding only the other
command's record the reply is sent for real — never suppressed — and
recorded under its own key. -/
theorem smart_reply_categories_independent (t1 t2 : String) (cid : Int)
    (st : DedupStore) (tr : Transport) (r : DedupRecord) (now : Int)
    (h : extract_command t1 ≠ extract_command t2) :
    dedupKey t1 cid ≠ dedupKey t2 cid ∧
    lookupRec (writeRec st (dedupKey t1 cid) r) (dedupKey t2 cid)
      = lookupRec st (dedupKey t2 cid) ∧
    smart_reply ("group") cid t2 now true (writeRec [] (dedupKey t1 cid) r) tr
      = .ok (writeRec (writeRec [] (dedupKey t1 cid) r) (dedupKey t2 cid)
               ⟨t2, tr.nextId, now⟩,
             (sendReal tr cid t2).1) := by
  have hk := @dedupKey_ne t1 t2 cid h
  refine ⟨hk, lookupRec_write_ne st r hk, ?_⟩
  have hnone : lookupRec (writeRec [] (dedupKey t1 cid) r) (dedupKey t2 cid)
      = none := lookupRec_write_ne [] r hk
  simp [smart_reply, hnone, sendReal]

/-- C5, witness: an `/events` reply and a `/book` reply in the same chat. -/
theorem smart_reply_categories_independent_witness :
    extract_command ("/events x") ≠ extract_command ("/book x") ∧
    (dedupKey ("/events x") 3 ≠ dedupKey ("/book x") 3 ∧
     lookupRec (writeRec [] (dedupKey ("/events x") 3) ⟨"e", 0, 0⟩)
         (dedupKey ("/book x") 3)
      = lookupRec [] (dedupKey ("/book x") 3) ∧
     smart_reply ("group") 3 ("/book x") 9 true
        (writeRec [] (dedupKey ("/events x") 3) ⟨"e", 0, 0⟩) ⟨[], 0⟩
      = .ok (writeRec (writeRec [] (dedupKey ("/events x") 3) ⟨"e", 0, 0⟩)
               (dedupKey ("/book x") 3) ⟨"/book x", 0, 9⟩,
             (sendReal ⟨[], 0⟩ 3 ("/book x")).1)) :=
  ⟨by decide,
   smart_reply_categories_independent ("/events x") ("/book x") 3 [] ⟨[], 0⟩
     ⟨"e", 0, 0⟩ 9 (by decide)⟩

/-- C7: in a private conversation every reply is a real transport send —
the dedup store is neither read nor written and no pointer reply is ever
produced; in particular two identical consecutive sends both reach the
transport. -/
theorem smart_reply_private_always_sends (cid : Int) (text : String)
    (now now' : Int) (st : DedupStore) (tr : Transport) :
    smart_reply ("private") cid text now true st tr
      = .ok (st, ⟨tr.sent ++ [.real cid text tr.nextId], tr.nextId + 1⟩) ∧
    smart_reply ("private") cid text now' true st
        ⟨tr.sent ++ [.real cid text tr.nextId], tr.nextId + 1⟩
      = .ok (st, ⟨(tr.sent ++ [.real cid text tr.nextId]) ++
                    [.real cid text (tr.nextId + 1)], tr.nextId + 2⟩) := by
  constructor <;> simp [smart_reply, sendReal]

/-- C8: a duplicate hit — live record with the same text — leaves the
dedup store exactly as it was (text, message id and timestamp untouched)
and only emits the pointer reply. -/
theorem smart_reply_duplicate_preserves_record (cid : Int) (text : String)
    (now : Int) (st : DedupStore) (tr : Transport) (r : DedupRecord)
    (hlook : lookupRec st (dedupKey text cid) = some r)
    (hlive : now < r.updated_at + 600) (htext : r.text = text) :
    smart_reply ("group") cid text now true st tr
      = .ok (st, sendPointer tr cid r.message_id) := by
  simp [smart_reply, hlook, hlive, htext]

/-- C8, witness: a live record for `"A"` at time 1. -/
theorem smart_reply_duplicate_preserves_record_witness :
    lookupRec [(dedupKey ("A") 1, ⟨"A", 5, 0⟩)] (dedupKey ("A") 1)
      = some ⟨"A", 5, 0⟩ ∧
    (1 : Int) < 0 + 600 ∧ ("A" : String) = "A" ∧
    smart_reply ("group") 1 ("A") 1 true [(dedupKey ("A") 1, ⟨"A", 5, 0⟩)] ⟨[], 9⟩
      = .ok ([(dedupKey ("A") 1, ⟨"A", 5, 0⟩)], sendPointer ⟨[], 9⟩ 1 5) :=
  ⟨by decide, by decide, rfl,
   smart_reply_duplicate_preserves_record 1 ("A") 1 _ ⟨[], 9⟩ ⟨"A", 5, 0⟩
     (by decide) (by decide) rfl⟩

/-- C9: when the transport refuses the send of new content the failure
propagates (`.error`) with the store untouched, so a subsequent identical
reply is still treated as new and performs a real send instead of being
suppressed. -/
theorem smart_reply_send_failure_no_update (cid : Int) (text : String)
    (now now2 : Int) (st : DedupStore) (tr : Transport)
    (h : dedupHit st (dedupKey text cid) text now = false)
    (h2 : dedupHit st (dedupKey text cid) text now2 = false) :
    smart_reply ("group") cid text now false st tr = .error (st, tr) ∧
    smart_reply ("group") cid text now2 true st tr
      = .ok (writeRec st (dedupKey text cid) ⟨text, tr.nextId, now2⟩,
             (sendReal tr cid text).1) := by
  cases hl : lookupRec st (dedupKey text cid) with
  | none => constructor <;> simp [smart_reply, hl, sendReal]
  | some r =>
    rw [dedupHit, hl, decide_eq_false_iff_not] at h h2
    constructor <;> simp [smart_reply, hl, h, h2, sendReal]

/-- C9, witness: empty store, failing transport at time 0, retry at 1. -/
theorem smart_reply_send_failure_no_update_witness :
    dedupHit [] (dedupKey ("A") 2) ("A") 0 = false ∧
    dedupHit [] (dedupKey ("A") 2) ("A") 1 = false ∧
    (smart_reply ("group") 2 ("A") 0 false [] ⟨[], 0⟩ = .error ([], ⟨[], 0⟩) ∧
     smart_reply ("group") 2 ("A") 1 true [] ⟨[], 0⟩
      = .ok (writeRec [] (dedupKey ("A") 2) ⟨"A", 0, 1⟩,
             (sendReal ⟨[], 0⟩ 2 ("A")).1)) :=
  ⟨by decide, by decide,
   smart_reply_send_failure_no_update 2 ("A") 0 1 [] ⟨[], 0⟩ (by decide) (by decide)⟩

set_option maxRecDepth 40000 in
/-- C6: the extractor returns exactly `("Example Book", 1700000000)` on a
document with the expected marker structure, via the primary regex
strategy; and on a document where the primary pattern cannot match but the
structural path resolves, the fallback strategy returns the same pair. -/
theorem extractor_round_trip :
    primaryExtract bookDoc1.data = some (("Example Book"), 1700000000) ∧
    extract_packt_free_book bookDoc1 = some (("Example Book"), 1700000000) ∧
    primaryExtract bookDoc2.data = none ∧
    fallbackExtract bookDoc2.data = some (("Example Book"), 1700000000) ∧
    extract_packt_free_book bookDoc2 = some (("Example Book"), 1700000000) :=
  ⟨rfl, rfl, rfl, by decide, by decide⟩

end GdgBot
